import Mathlib

/-!
Verification of the quadratic Bézier segment core (`src/geom/src/quadratic_bezier.rs`).

The scalar type `S` of the source is a generic ordered field with square root
and hypot; the exact-arithmetic operations (sampling, splitting, extremum
finding, bounding rectangles, degree elevation) are embedded over `ℚ`, and the
operations that genuinely need square roots (`is_linear`'s point-to-line
distance, `flattening_step`'s hypot and square root) are embedded over `ℝ`
with `Real.sqrt`.
-/

namespace QuadBez


/-- A 2d point with exact rational coordinates (the `Point<S>` collaborator,
used here only componentwise). -/
@[ext]
structure Point where
  x : ℚ
  y : ℚ
deriving DecidableEq, Repr

/-- Linear interpolation `p + (q - p) * t`, the point `lerp` operation the
source calls on its collaborator points. -/
def lerp (p q : Point) (t : ℚ) : Point :=
  ⟨p.x + (q.x - p.x) * t, p.y + (q.y - p.y) * t⟩

/-- The quadratic Bézier segment: `from`, `ctrl`, `to` (the field `from` is a
Lean keyword, hence `from'`). -/
@[ext]
structure QuadraticBezierSegment where
  from' : Point
  ctrl : Point
  to' : Point
deriving DecidableEq, Repr

/-- `sample(t)`: evaluate the quadratic Bernstein basis, exactly as written in
the source (componentwise `from * one_t2 + ctrl * 2 * one_t * t + to * t2`). -/
def sample (s : QuadraticBezierSegment) (t : ℚ) : Point :=
  let t2 := t * t
  let one_t := 1 - t
  let one_t2 := one_t * one_t
  ⟨s.from'.x * one_t2 + s.ctrl.x * 2 * one_t * t + s.to'.x * t2,
   s.from'.y * one_t2 + s.ctrl.y * 2 * one_t * t + s.to'.y * t2⟩

/-- `find_local_y_extremum`: root of the derivative's y component, guarded
against a zero denominator and restricted to the open interval (0,1). -/
def find_local_y_extremum (s : QuadraticBezierSegment) : Option ℚ :=
  let div := s.from'.y - 2 * s.ctrl.y + s.to'.y
  if div = 0 then none
  else
    let t := (s.from'.y - s.ctrl.y) / div
    if 0 < t ∧ t < 1 then some t else none

/-- `find_local_x_extremum`: x analogue of `find_local_y_extremum`. -/
def find_local_x_extremum (s : QuadraticBezierSegment) : Option ℚ :=
  let div := s.from'.x - 2 * s.ctrl.x + s.to'.x
  if div = 0 then none
  else
    let t := (s.from'.x - s.ctrl.x) / div
    if 0 < t ∧ t < 1 then some t else none

/-- `find_y_maximum`: the interior extremum when it beats both endpoints
strictly, otherwise the y-larger endpoint (`t=0` iff `from.y > to.y`). -/
def find_y_maximum (s : QuadraticBezierSegment) : ℚ :=
  match find_local_y_extremum s with
  | some t =>
    let p := sample s t
    if s.from'.y < p.y ∧ s.to'.y < p.y then t
    else if s.to'.y < s.from'.y then 0 else 1
  | none => if s.to'.y < s.from'.y then 0 else 1

/-- `find_y_minimum`: the interior extremum when it is strictly below both
endpoints, otherwise the y-smaller endpoint (`t=0` iff `from.y < to.y`). -/
def find_y_minimum (s : QuadraticBezierSegment) : ℚ :=
  match find_local_y_extremum s with
  | some t =>
    let p := sample s t
    if p.y < s.from'.y ∧ p.y < s.to'.y then t
    else if s.from'.y < s.to'.y then 0 else 1
  | none => if s.from'.y < s.to'.y then 0 else 1

/-- `find_x_maximum`: x analogue of `find_y_maximum`. -/
def find_x_maximum (s : QuadraticBezierSegment) : ℚ :=
  match find_local_x_extremum s with
  | some t =>
    let p := sample s t
    if s.from'.x < p.x ∧ s.to'.x < p.x then t
    else if s.to'.x < s.from'.x then 0 else 1
  | none => if s.to'.x < s.from'.x then 0 else 1

/-- `find_x_minimum`: x analogue of `find_y_minimum`. -/
def find_x_minimum (s : QuadraticBezierSegment) : ℚ :=
  match find_local_x_extremum s with
  | some t =>
    let p := sample s t
    if p.x < s.from'.x ∧ p.x < s.to'.x then t
    else if s.from'.x < s.to'.x then 0 else 1
  | none => if s.from'.x < s.to'.x then 0 else 1

/-- `split_range(t1..t2)`: the source's direct construction of the sub-curve,
two nested linear interpolations for the control point (its debug assertions
`0 ≤ t1 ≤ t2 ≤ 1`, `t1 ≠ 1` are preconditions, not encoded in the value). -/
def split_range (s : QuadraticBezierSegment) (t1 t2 : ℚ) : QuadraticBezierSegment :=
  let f := sample s t1
  let g := sample s t2
  let a := lerp s.from' s.ctrl t1
  let b := lerp s.ctrl s.to' t1
  let c := lerp a b ((t2 - t1) / (1 - t1))
  ⟨f, c, g⟩

/-- `split(t)`: one level of de Casteljau, both halves. -/
def split (s : QuadraticBezierSegment) (t : ℚ) :
    QuadraticBezierSegment × QuadraticBezierSegment :=
  let split_point := sample s t
  (⟨s.from', lerp s.from' s.ctrl t, split_point⟩,
   ⟨split_point, lerp s.ctrl s.to' t, s.to'⟩)

/-- `before_split(t)`: the half of `split` before the split point. -/
def before_split (s : QuadraticBezierSegment) (t : ℚ) : QuadraticBezierSegment :=
  ⟨s.from', lerp s.from' s.ctrl t, sample s t⟩

/-- `after_split(t)`: the half of `split` after the split point. -/
def after_split (s : QuadraticBezierSegment) (t : ℚ) : QuadraticBezierSegment :=
  ⟨sample s t, lerp s.ctrl s.to' t, s.to'⟩

/-- The cubic Bézier segment, the degree-elevation target (an external
collaborator of this core; only its four control points are needed here). -/
@[ext]
structure CubicBezierSegment where
  from' : Point
  ctrl1 : Point
  ctrl2 : Point
  to' : Point
deriving DecidableEq, Repr

/-- `to_cubic()`: degree elevation, `ctrl1 = (from + 2·ctrl)/3`,
`ctrl2 = (to + 2·ctrl)/3`, exactly as in the source. -/
def to_cubic (s : QuadraticBezierSegment) : CubicBezierSegment :=
  ⟨s.from',
   ⟨(s.from'.x + s.ctrl.x * 2) / 3, (s.from'.y + s.ctrl.y * 2) / 3⟩,
   ⟨(s.to'.x + s.ctrl.x * 2) / 3, (s.to'.y + s.ctrl.y * 2) / 3⟩,
   s.to'⟩

/-- Modelled from the spec: the cubic Bézier segment type is an external
collaborator (spec §1) and its `sample` is not part of this core; per the
glossary, degree elevation re-expresses the quadratic as an equivalent cubic
with identical parametrization, so the cubic samples the cubic Bernstein
basis `(1-t)³·from + 3(1-t)²t·ctrl1 + 3(1-t)t²·ctrl2 + t³·to`. -/
def cubicSample (s : CubicBezierSegment) (t : ℚ) : Point :=
  let one_t := 1 - t
  ⟨s.from'.x * (one_t * one_t * one_t) + s.ctrl1.x * (3 * one_t * one_t * t) +
     s.ctrl2.x * (3 * one_t * t * t) + s.to'.x * (t * t * t),
   s.from'.y * (one_t * one_t * one_t) + s.ctrl1.y * (3 * one_t * one_t * t) +
     s.ctrl2.y * (3 * one_t * t * t) + s.to'.y * (t * t * t)⟩

/-! Concrete segments used by witnesses and counterexamples. -/

/-- The degenerate-control segment from (0,0) to (1,0) with the control point
on the start point, used to exhibit the `split_range` control-point bug. -/
def segBug : QuadraticBezierSegment := ⟨⟨0, 0⟩, ⟨0, 0⟩, ⟨1, 0⟩⟩

/-- The fully degenerate segment with all three points at the origin. -/
def segZero : QuadraticBezierSegment := ⟨⟨0, 0⟩, ⟨0, 0⟩, ⟨0, 0⟩⟩

/-- The arch from (0,0) over (1,1) to (2,0) used by the repository's own
tests. -/
def segArch : QuadraticBezierSegment := ⟨⟨0, 0⟩, ⟨1, 1⟩, ⟨2, 0⟩⟩

/-- One coordinate of `sample`: the quadratic Bernstein polynomial. -/
def qpoly (a b c t : ℚ) : ℚ :=
  a * ((1 - t) * (1 - t)) + b * 2 * (1 - t) * t + c * (t * t)

/-- One coordinate of the local-extremum finder. -/
def qextremum (a b c : ℚ) : Option ℚ :=
  if a - 2 * b + c = 0 then none
  else
    if 0 < (a - b) / (a - 2 * b + c) ∧ (a - b) / (a - 2 * b + c) < 1
    then some ((a - b) / (a - 2 * b + c)) else none

/-- One coordinate of the minimum finder. -/
def qmin (a b c : ℚ) : ℚ :=
  match qextremum a b c with
  | some t =>
    if qpoly a b c t < a ∧ qpoly a b c t < c then t
    else if a < c then 0 else 1
  | none => if a < c then 0 else 1

/-- One coordinate of the maximum finder. -/
def qmax (a b c : ℚ) : ℚ :=
  match qextremum a b c with
  | some t =>
    if a < qpoly a b c t ∧ c < qpoly a b c t then t
    else if c < a then 0 else 1
  | none => if c < a then 0 else 1

/-- The axis-aligned rectangle collaborator, as produced by the source's
calls to `rect(x, y, w, h)`: origin and size. -/
structure Rect where
  x : ℚ
  y : ℚ
  width : ℚ
  height : ℚ
deriving DecidableEq, Repr

/-- The `rect(x, y, w, h)` constructor. -/
def rect (x y w h : ℚ) : Rect := ⟨x, y, w, h⟩

/-- `fast_bounding_range_x`: chained min/max of the three control points'
x coordinates. -/
def fast_bounding_range_x (s : QuadraticBezierSegment) : ℚ × ℚ :=
  (min (min s.from'.x s.ctrl.x) s.to'.x, max (max s.from'.x s.ctrl.x) s.to'.x)

/-- `fast_bounding_range_y`: chained min/max of the three control points'
y coordinates. -/
def fast_bounding_range_y (s : QuadraticBezierSegment) : ℚ × ℚ :=
  (min (min s.from'.y s.ctrl.y) s.to'.y, max (max s.from'.y s.ctrl.y) s.to'.y)

/-- `fast_bounding_rect`: conservative rectangle from the fast ranges. -/
def fast_bounding_rect (s : QuadraticBezierSegment) : Rect :=
  rect (fast_bounding_range_x s).1 (fast_bounding_range_y s).1
    ((fast_bounding_range_x s).2 - (fast_bounding_range_x s).1)
    ((fast_bounding_range_y s).2 - (fast_bounding_range_y s).1)

/-- `bounding_range_x`: sample the curve at the x extremum parameters. -/
def bounding_range_x (s : QuadraticBezierSegment) : ℚ × ℚ :=
  ((sample s (find_x_minimum s)).x, (sample s (find_x_maximum s)).x)

/-- `bounding_range_y`: sample the curve at the y extremum parameters. -/
def bounding_range_y (s : QuadraticBezierSegment) : ℚ × ℚ :=
  ((sample s (find_y_minimum s)).y, (sample s (find_y_maximum s)).y)

/-- `bounding_rect`: tight rectangle from the extremum samples. -/
def bounding_rect (s : QuadraticBezierSegment) : Rect :=
  rect (bounding_range_x s).1 (bounding_range_y s).1
    ((bounding_range_x s).2 - (bounding_range_x s).1)
    ((bounding_range_y s).2 - (bounding_range_y s).1)

/-- Modelled from the spec: the rectangle type is an external collaborator
(spec §1); a rectangle given by origin and size contains a point when the
point's coordinates lie in the closed ranges [x, x+width] × [y, y+height]. -/
def rectContainsPoint (r : Rect) (p : Point) : Prop :=
  r.x ≤ p.x ∧ p.x ≤ r.x + r.width ∧ r.y ≤ p.y ∧ p.y ≤ r.y + r.height

/-- Modelled from the spec: a rectangle is contained in another when its
closed coordinate ranges are sub-ranges of the other's. -/
def rectContainsRect (outer inner : Rect) : Prop :=
  outer.x ≤ inner.x ∧ inner.x + inner.width ≤ outer.x + outer.width ∧
  outer.y ≤ inner.y ∧ inner.y + inner.height ≤ outer.y + outer.height

/-- A 2d point with real coordinates, for the operations of the source that
need square roots (`is_linear`, `flattening_step`). -/
structure RPoint where
  x : ℝ
  y : ℝ

/-- A quadratic Bézier segment over real scalars. -/
structure RQuadSegment where
  from' : RPoint
  ctrl : RPoint
  to' : RPoint

/-- The source's `v1_cross_v2` expression of `flattening_step`:
`v2.x * v1.y - v2.y * v1.x` with `v1 = ctrl - from` and `v2 = to - from`;
it vanishes exactly when the three points are collinear. -/
def crossV1V2 (s : RQuadSegment) : ℝ :=
  (s.to'.x - s.from'.x) * (s.ctrl.y - s.from'.y) -
    (s.to'.y - s.from'.y) * (s.ctrl.x - s.from'.x)

/-- The source's `h = v1.x.hypot(v1.y)`: hypot is modelled as the square root
of the sum of squares. -/
noncomputable def hypotV1 (s : RQuadSegment) : ℝ :=
  Real.sqrt ((s.ctrl.x - s.from'.x) * (s.ctrl.x - s.from'.x) +
    (s.ctrl.y - s.from'.y) * (s.ctrl.y - s.from'.y))

/-- `flattening_step(tolerance)`: the degenerate guard compares
`|v1_cross_v2 * h|` against the fixed epsilon 0.000001, otherwise
`t = 2 * sqrt(tolerance * |h / v1_cross_v2| / 3)` clamped to 1. -/
noncomputable def flattening_step (s : RQuadSegment) (tolerance : ℝ) : ℝ :=
  if |crossV1V2 s * hypotV1 s| ≤ 1/1000000 then 1
  else
    if 1 < 2 * Real.sqrt (tolerance * |hypotV1 s / crossV1V2 s| / 3) then 1
    else 2 * Real.sqrt (tolerance * |hypotV1 s / crossV1V2 s| / 3)

/-- Modelled from the spec: the line-equation collaborator (spec §1) is
external; `distance_to_point` is the perpendicular distance from a point `r`
to the line through `p` and `q`. -/
noncomputable def lineDistanceToPoint (p q r : RPoint) : ℝ :=
  |(q.x - p.x) * (r.y - p.y) - (q.y - p.y) * (r.x - p.x)| /
    Real.sqrt ((q.x - p.x) * (q.x - p.x) + (q.y - p.y) * (q.y - p.y))

/-- `is_linear(tolerance)`: false when the squared endpoint distance is below
the fixed epsilon 0.000001, otherwise true iff the distance from `ctrl` to
the baseline is below the tolerance. -/
noncomputable def is_linear (s : RQuadSegment) (tolerance : ℝ) : Bool :=
  if (s.from'.x - s.to'.x) * (s.from'.x - s.to'.x) +
      (s.from'.y - s.to'.y) * (s.from'.y - s.to'.y) < 1/1000000 then false
  else decide (lineDistanceToPoint s.from' s.to' s.ctrl < tolerance)

/-- The collinear segment (0,0), (0,0), (1/2000, 0): its endpoints are
distinct but closer than the fixed epsilon of `is_linear`. -/
noncomputable def segClose : RQuadSegment := ⟨⟨0, 0⟩, ⟨0, 0⟩, ⟨1/2000, 0⟩⟩

/-- The evenly spaced collinear segment (0,0), (1,0), (2,0). -/
noncomputable def segRLine : RQuadSegment := ⟨⟨0, 0⟩, ⟨1, 0⟩, ⟨2, 0⟩⟩

/-- The segment (0,0), (3,4), (6, 8 - 1/6000000): its control arm has length
5 and the cross product of `v1` and `v2` is 1/2000000, below the fixed
epsilon, but the guard quantity `|cross * h| = 1/400000` is not. -/
noncomputable def segThin : RQuadSegment := ⟨⟨0, 0⟩, ⟨3, 4⟩, ⟨6, 8 - 1/6000000⟩⟩

/-- The fully degenerate real segment with all points at the origin. -/
noncomputable def segRZero : RQuadSegment := ⟨⟨0, 0⟩, ⟨0, 0⟩, ⟨0, 0⟩⟩

/-- C7: for every segment, `sample 0` is exactly the `from` point and
`sample 1` is exactly the `to` point. -/
theorem sample_endpoints_exact (s : QuadraticBezierSegment) :
    sample s 0 = s.from' ∧ sample s 1 = s.to' := by
  constructor <;> · ext <;> simp [sample] <;> ring

/-- C6: the two halves produced by `split t` share the split point exactly
(`first.sample 1 = second.sample 0 = sample t`) and keep the original
endpoints (`first.from = from`, `second.to = to`). -/
theorem split_halves_share_sample_point (s : QuadraticBezierSegment) (t : ℚ)
    (h0 : 0 ≤ t) (h1 : t ≤ 1) :
    sample (split s t).1 1 = sample s t ∧
    sample (split s t).2 0 = sample s t ∧
    (split s t).1.from' = s.from' ∧
    (split s t).2.to' = s.to' := by
  refine ⟨?_, ?_, rfl, rfl⟩ <;> · ext <;> simp [split, sample, lerp] <;> ring

/-- C6 witness: the split property evaluated on the test arch at t = 1/2. -/
theorem split_halves_share_sample_point_witness :
    sample (split segArch (1/2)).1 1 = sample segArch (1/2) ∧
    sample (split segArch (1/2)).2 0 = sample segArch (1/2) ∧
    (split segArch (1/2)).1.from' = segArch.from' ∧
    (split segArch (1/2)).2.to' = segArch.to' :=
  split_halves_share_sample_point segArch (1/2) (by norm_num) (by norm_num)

/-- C5: degree elevation is exact: sampling the cubic returned by `to_cubic`
at any `t` in [0,1] equals sampling the quadratic at the same `t`. -/
theorem to_cubic_sample_eq (s : QuadraticBezierSegment) (t : ℚ)
    (h0 : 0 ≤ t) (h1 : t ≤ 1) :
    cubicSample (to_cubic s) t = sample s t := by
  ext <;> simp [cubicSample, to_cubic, sample] <;> ring

/-- C5 witness: degree elevation evaluated on the test arch at t = 1/2. -/
theorem to_cubic_sample_eq_witness :
    cubicSample (to_cubic segArch) (1/2) = sample segArch (1/2) :=
  to_cubic_sample_eq segArch (1/2) (by norm_num) (by norm_num)

/-- C1: on the segment `segBug` with the admissible range [1/2, 3/4]
(`0 ≤ t1 ≤ t2 ≤ 1`, `t1 ≠ 1`), `split_range` does not return the segment
obtained by `after_split t1` followed by `before_split ((t2-t1)/(1-t1))`:
the code's control point is (1/4,0) where the split composition (and the true
sub-curve) needs (3/8,0), and consequently the returned segment does not even
sample the original curve at the midpoint of the range. -/
theorem split_range_ctrl_diverges :
    (0 ≤ (1/2 : ℚ) ∧ (1/2 : ℚ) ≤ 3/4 ∧ (3/4 : ℚ) ≤ 1 ∧ (1/2 : ℚ) ≠ 1) ∧
    split_range segBug (1/2) (3/4) ≠
      before_split (after_split segBug (1/2)) ((3/4 - 1/2) / (1 - 1/2)) ∧
    (split_range segBug (1/2) (3/4)).ctrl = ⟨1/4, 0⟩ ∧
    (before_split (after_split segBug (1/2)) ((3/4 - 1/2) / (1 - 1/2))).ctrl = ⟨3/8, 0⟩ ∧
    sample (split_range segBug (1/2) (3/4)) (1/2) ≠ sample segBug (5/8) := by
  refine ⟨by norm_num, ?_, ?_, ?_, ?_⟩ <;>
    norm_num [split_range, before_split, after_split, sample, lerp, segBug,
      QuadraticBezierSegment.ext_iff, Point.ext_iff]

/-- C2 counterexample: on the all-zero segment no interior extremum is
returned and the endpoints tie in y, yet `find_y_minimum` returns 1, not the
0 the claim requires (and `find_x_minimum` does the same). -/
theorem find_minimum_tie_is_one :
    find_local_y_extremum segZero = none ∧
    segZero.from'.y = segZero.to'.y ∧
    find_y_minimum segZero = 1 ∧
    find_x_minimum segZero = 1 := by
  refine ⟨?_, rfl, ?_, ?_⟩ <;>
    norm_num [find_y_minimum, find_x_minimum, find_local_y_extremum,
      find_local_x_extremum, segZero]

/-- C2 amended: when the relevant finder falls through to the endpoint
comparison (no qualifying interior extremum) and the two endpoints have equal
coordinate values in the queried axis, all four finders — maxima and minima
alike — return t = 1. -/
theorem endpoint_tie_resolves_to_one (s : QuadraticBezierSegment) :
    (s.from'.y = s.to'.y →
      (∀ t, find_local_y_extremum s = some t →
        ¬(s.from'.y < (sample s t).y ∧ s.to'.y < (sample s t).y)) →
      find_y_maximum s = 1) ∧
    (s.from'.y = s.to'.y →
      (∀ t, find_local_y_extremum s = some t →
        ¬((sample s t).y < s.from'.y ∧ (sample s t).y < s.to'.y)) →
      find_y_minimum s = 1) ∧
    (s.from'.x = s.to'.x →
      (∀ t, find_local_x_extremum s = some t →
        ¬(s.from'.x < (sample s t).x ∧ s.to'.x < (sample s t).x)) →
      find_x_maximum s = 1) ∧
    (s.from'.x = s.to'.x →
      (∀ t, find_local_x_extremum s = some t →
        ¬((sample s t).x < s.from'.x ∧ (sample s t).x < s.to'.x)) →
      find_x_minimum s = 1) := by
  refine ⟨?_, ?_, ?_, ?_⟩ <;> intro heq hq
  · unfold find_y_maximum
    cases h : find_local_y_extremum s with
    | none => simp [heq]
    | some t => simp only [if_neg (hq t h)]; rw [heq]; simp
  · unfold find_y_minimum
    cases h : find_local_y_extremum s with
    | none => simp [heq]
    | some t => simp only [if_neg (hq t h)]; rw [heq]; simp
  · unfold find_x_maximum
    cases h : find_local_x_extremum s with
    | none => simp [heq]
    | some t => simp only [if_neg (hq t h)]; rw [heq]; simp
  · unfold find_x_minimum
    cases h : find_local_x_extremum s with
    | none => simp [heq]
    | some t => simp only [if_neg (hq t h)]; rw [heq]; simp

/-- C3: each local-extremum finder returns `none` exactly when the basis
denominator `from - 2·ctrl + to` in its coordinate vanishes or the root
`(from - ctrl) / (from - 2·ctrl + to)` is not strictly inside (0,1), and
returns `some` of exactly that root otherwise; in particular a root at the
boundary yields `none`, and the guarded division is only used when the
denominator is nonzero. -/
theorem find_local_extremum_characterization (s : QuadraticBezierSegment) :
    (find_local_x_extremum s = none ↔
      (s.from'.x - 2 * s.ctrl.x + s.to'.x = 0 ∨
        ¬(0 < (s.from'.x - s.ctrl.x) / (s.from'.x - 2 * s.ctrl.x + s.to'.x) ∧
          (s.from'.x - s.ctrl.x) / (s.from'.x - 2 * s.ctrl.x + s.to'.x) < 1))) ∧
    (∀ u, find_local_x_extremum s = some u ↔
      (s.from'.x - 2 * s.ctrl.x + s.to'.x ≠ 0 ∧
        u = (s.from'.x - s.ctrl.x) / (s.from'.x - 2 * s.ctrl.x + s.to'.x) ∧
        0 < u ∧ u < 1)) ∧
    (find_local_y_extremum s = none ↔
      (s.from'.y - 2 * s.ctrl.y + s.to'.y = 0 ∨
        ¬(0 < (s.from'.y - s.ctrl.y) / (s.from'.y - 2 * s.ctrl.y + s.to'.y) ∧
          (s.from'.y - s.ctrl.y) / (s.from'.y - 2 * s.ctrl.y + s.to'.y) < 1))) ∧
    (∀ u, find_local_y_extremum s = some u ↔
      (s.from'.y - 2 * s.ctrl.y + s.to'.y ≠ 0 ∧
        u = (s.from'.y - s.ctrl.y) / (s.from'.y - 2 * s.ctrl.y + s.to'.y) ∧
        0 < u ∧ u < 1)) := by
  refine ⟨?_, fun u => ?_, ?_, fun u => ?_⟩ <;>
    · simp only [find_local_x_extremum, find_local_y_extremum]
      split_ifs with h1 h2 <;> simp [h1] <;> aesop

theorem sample_x (s : QuadraticBezierSegment) (t : ℚ) :
    (sample s t).x = qpoly s.from'.x s.ctrl.x s.to'.x t := rfl

theorem sample_y (s : QuadraticBezierSegment) (t : ℚ) :
    (sample s t).y = qpoly s.from'.y s.ctrl.y s.to'.y t := rfl

theorem find_local_x_eq (s : QuadraticBezierSegment) :
    find_local_x_extremum s = qextremum s.from'.x s.ctrl.x s.to'.x := rfl

theorem find_local_y_eq (s : QuadraticBezierSegment) :
    find_local_y_extremum s = qextremum s.from'.y s.ctrl.y s.to'.y := rfl

theorem find_x_minimum_eq (s : QuadraticBezierSegment) :
    find_x_minimum s = qmin s.from'.x s.ctrl.x s.to'.x := rfl

theorem find_y_minimum_eq (s : QuadraticBezierSegment) :
    find_y_minimum s = qmin s.from'.y s.ctrl.y s.to'.y := rfl

theorem find_x_maximum_eq (s : QuadraticBezierSegment) :
    find_x_maximum s = qmax s.from'.x s.ctrl.x s.to'.x := rfl

theorem find_y_maximum_eq (s : QuadraticBezierSegment) :
    find_y_maximum s = qmax s.from'.y s.ctrl.y s.to'.y := rfl

theorem qpoly_zero (a b c : ℚ) : qpoly a b c 0 = a := by unfold qpoly; ring

theorem qpoly_one (a b c : ℚ) : qpoly a b c 1 = c := by unfold qpoly; ring

theorem qextremum_none_iff (a b c : ℚ) :
    qextremum a b c = none ↔
      (a - 2 * b + c = 0 ∨
        ¬(0 < (a - b) / (a - 2 * b + c) ∧ (a - b) / (a - 2 * b + c) < 1)) := by
  unfold qextremum; split_ifs with h1 h2 <;> simp [h1] <;> aesop

theorem qextremum_some_iff (a b c u : ℚ) :
    qextremum a b c = some u ↔
      (a - 2 * b + c ≠ 0 ∧ u = (a - b) / (a - 2 * b + c) ∧ 0 < u ∧ u < 1) := by
  unfold qextremum; split_ifs with h1 h2 <;> simp [h1] <;> aesop

theorem qmin_of_none (a b c : ℚ) (h : qextremum a b c = none) :
    qmin a b c = if a < c then 0 else 1 := by
  unfold qmin; rw [h]

theorem qmin_of_some (a b c u : ℚ) (h : qextremum a b c = some u) :
    qmin a b c =
      if qpoly a b c u < a ∧ qpoly a b c u < c then u
      else if a < c then 0 else 1 := by
  unfold qmin; rw [h]

theorem qmax_of_none (a b c : ℚ) (h : qextremum a b c = none) :
    qmax a b c = if c < a then 0 else 1 := by
  unfold qmax; rw [h]

theorem qmax_of_some (a b c u : ℚ) (h : qextremum a b c = some u) :
    qmax a b c =
      if a < qpoly a b c u ∧ c < qpoly a b c u then u
      else if c < a then 0 else 1 := by
  unfold qmax; rw [h]

theorem qpoly_sub_eq (a b c t tc : ℚ) (hAtc : tc * (a - 2 * b + c) = a - b) :
    qpoly a b c t - qpoly a b c tc = (a - 2 * b + c) * (t - tc) ^ 2 := by
  unfold qpoly; linear_combination (2 * (t - tc)) * hAtc

theorem qpoly_concave_chord (a b c t : ℚ) :
    qpoly a b c t - ((1 - t) * a + t * c) = (a - 2 * b + c) * (t * (t - 1)) := by
  unfold qpoly; ring

set_option maxHeartbeats 1000000 in
theorem qmin_le (a b c t : ℚ) (h0 : 0 ≤ t) (h1 : t ≤ 1) :
    qpoly a b c (qmin a b c) ≤ qpoly a b c t := by
  rcases h : qextremum a b c with _ | tc
  · -- no interior extremum reported: the minimum is at an endpoint
    rw [qmin_of_none a b c h]
    rcases eq_or_ne (a - 2 * b + c) 0 with hA | hA
    · -- the coordinate is linear in t
      have e6 := qpoly_concave_chord a b c t
      rw [hA] at e6
      split_ifs with hac
      · rw [qpoly_zero]
        nlinarith [mul_nonneg h0 (le_of_lt (sub_pos.2 hac))]
      · rw [qpoly_one]
        push_neg at hac
        nlinarith [mul_nonneg (sub_nonneg.2 h1) (sub_nonneg.2 hac)]
    · -- the vertex exists but lies outside (0,1)
      have hout := ((qextremum_none_iff a b c).1 h).resolve_left hA
      push_neg at hout
      set tc := (a - b) / (a - 2 * b + c) with htc_def
      have hAtc : tc * (a - 2 * b + c) = a - b := div_mul_cancel₀ _ hA
      have ha' : a = qpoly a b c tc + (a - 2 * b + c) * (0 - tc) ^ 2 := by
        have := qpoly_sub_eq a b c 0 tc hAtc
        rw [qpoly_zero] at this; linarith
      have hc' : c = qpoly a b c tc + (a - 2 * b + c) * (1 - tc) ^ 2 := by
        have := qpoly_sub_eq a b c 1 tc hAtc
        rw [qpoly_one] at this; linarith
      have ht' := qpoly_sub_eq a b c t tc hAtc
      have hout' : tc ≤ 0 ∨ 1 ≤ tc := by
        rcases le_or_lt tc 0 with h' | h'
        · exact Or.inl h'
        · exact Or.inr (hout h')
      rcases lt_or_gt_of_ne hA with hAneg | hApos
      · -- concave with vertex outside (0,1)
        rcases hout' with htcle | htcge
        · -- tc ≤ 0: decreasing on [0,1], so c < a and the minimum is c
          split_ifs with hac
          · exfalso
            nlinarith [mul_pos (neg_pos.2 hAneg) (show (0:ℚ) < 1 - 2 * tc by linarith)]
          · rw [qpoly_one]
            nlinarith [mul_nonneg (mul_nonneg (neg_nonneg.2 (le_of_lt hAneg))
              (sub_nonneg.2 h1)) (show (0:ℚ) ≤ t + 1 - 2 * tc by linarith)]
        · -- 1 ≤ tc: increasing on [0,1], so a < c and the minimum is a
          split_ifs with hac
          · rw [qpoly_zero]
            nlinarith [mul_nonneg (mul_nonneg (neg_nonneg.2 (le_of_lt hAneg)) h0)
              (show (0:ℚ) ≤ 2 * tc - t by linarith)]
          · exfalso
            push_neg at hac
            nlinarith [mul_pos (neg_pos.2 hAneg) (show (0:ℚ) < 2 * tc - 1 by linarith)]
      · -- convex with vertex outside (0,1)
        rcases hout' with htcle | htcge
        · -- tc ≤ 0: increasing on [0,1], so a < c and the minimum is a
          split_ifs with hac
          · rw [qpoly_zero]
            nlinarith [mul_nonneg (mul_nonneg (le_of_lt hApos) h0)
              (show (0:ℚ) ≤ t - 2 * tc by linarith)]
          · exfalso
            push_neg at hac
            nlinarith [mul_pos hApos (show (0:ℚ) < 1 - 2 * tc by linarith)]
        · -- 1 ≤ tc: decreasing on [0,1], so c < a and the minimum is c
          split_ifs with hac
          · exfalso
            nlinarith [mul_pos hApos (show (0:ℚ) < 2 * tc - 1 by linarith)]
          · rw [qpoly_one]
            nlinarith [mul_nonneg (mul_nonneg (le_of_lt hApos) (sub_nonneg.2 h1))
              (show (0:ℚ) ≤ 2 * tc - 1 - t by linarith)]
  · -- an interior extremum was reported
    rw [qmin_of_some a b c tc h]
    obtain ⟨hA, htc_eq, htc0, htc1⟩ := (qextremum_some_iff a b c tc).1 h
    have hAtc : tc * (a - 2 * b + c) = a - b := by
      rw [htc_eq]; exact div_mul_cancel₀ _ hA
    have ha' : a = qpoly a b c tc + (a - 2 * b + c) * (0 - tc) ^ 2 := by
      have := qpoly_sub_eq a b c 0 tc hAtc
      rw [qpoly_zero] at this; linarith
    have hc' : c = qpoly a b c tc + (a - 2 * b + c) * (1 - tc) ^ 2 := by
      have := qpoly_sub_eq a b c 1 tc hAtc
      rw [qpoly_one] at this; linarith
    have ht' := qpoly_sub_eq a b c t tc hAtc
    have e6 := qpoly_concave_chord a b c t
    split_ifs with hqual hac
    · -- the interior extremum qualifies: convexity is forced, tc is global min
      have hApos : 0 < a - 2 * b + c := by
        by_contra hle
        push_neg at hle
        nlinarith [hqual.1, mul_nonneg (neg_nonneg.2 hle) (sq_nonneg tc)]
      nlinarith [mul_nonneg (le_of_lt hApos) (sq_nonneg (t - tc))]
    · -- no qualification with an interior vertex: the curve is concave here
      have hAneg : a - 2 * b + c < 0 := by
        rcases lt_or_gt_of_ne hA with h' | h'
        · exact h'
        · exact absurd ⟨by nlinarith [mul_pos h' (mul_pos htc0 htc0)],
            by nlinarith [mul_pos h' (mul_pos (sub_pos.2 htc1) (sub_pos.2 htc1))]⟩ hqual
      rw [qpoly_zero]
      nlinarith [mul_nonneg h0 (le_of_lt (sub_pos.2 hac)),
        mul_nonneg (mul_nonneg (neg_nonneg.2 (le_of_lt hAneg)) h0) (sub_nonneg.2 h1)]
    · have hAneg : a - 2 * b + c < 0 := by
        rcases lt_or_gt_of_ne hA with h' | h'
        · exact h'
        · exact absurd ⟨by nlinarith [mul_pos h' (mul_pos htc0 htc0)],
            by nlinarith [mul_pos h' (mul_pos (sub_pos.2 htc1) (sub_pos.2 htc1))]⟩ hqual
      rw [qpoly_one]
      push_neg at hac
      nlinarith [mul_nonneg (sub_nonneg.2 h1) (sub_nonneg.2 hac),
        mul_nonneg (mul_nonneg (neg_nonneg.2 (le_of_lt hAneg)) h0) (sub_nonneg.2 h1)]

theorem qpoly_neg (a b c t : ℚ) : qpoly (-a) (-b) (-c) t = -(qpoly a b c t) := by
  unfold qpoly; ring

theorem qextremum_neg (a b c : ℚ) : qextremum (-a) (-b) (-c) = qextremum a b c := by
  unfold qextremum
  have h1 : -a - 2 * -b + -c = -(a - 2 * b + c) := by ring
  have h2 : -a - -b = -(a - b) := by ring
  rw [h1, h2, neg_div_neg_eq]
  simp only [neg_eq_zero]

theorem qmax_eq_qmin_neg (a b c : ℚ) : qmax a b c = qmin (-a) (-b) (-c) := by
  rcases h : qextremum a b c with _ | u
  · rw [qmax_of_none a b c h, qmin_of_none (-a) (-b) (-c) (by rw [qextremum_neg]; exact h)]
    simp [neg_lt_neg_iff]
  · rw [qmax_of_some a b c u h, qmin_of_some (-a) (-b) (-c) u (by rw [qextremum_neg]; exact h)]
    rw [qpoly_neg]
    simp [neg_lt_neg_iff]

theorem qmax_ge (a b c t : ℚ) (h0 : 0 ≤ t) (h1 : t ≤ 1) :
    qpoly a b c t ≤ qpoly a b c (qmax a b c) := by
  have h := qmin_le (-a) (-b) (-c) t h0 h1
  rw [qpoly_neg, qpoly_neg] at h
  rw [qmax_eq_qmin_neg]
  linarith

theorem qmin_mem (a b c : ℚ) : 0 ≤ qmin a b c ∧ qmin a b c ≤ 1 := by
  rcases h : qextremum a b c with _ | u
  · rw [qmin_of_none a b c h]
    split_ifs <;> norm_num
  · obtain ⟨-, -, hu0, hu1⟩ := (qextremum_some_iff a b c u).1 h
    rw [qmin_of_some a b c u h]
    split_ifs
    · exact ⟨le_of_lt hu0, le_of_lt hu1⟩
    · norm_num
    · norm_num

theorem qmax_mem (a b c : ℚ) : 0 ≤ qmax a b c ∧ qmax a b c ≤ 1 := by
  rw [qmax_eq_qmin_neg]; exact qmin_mem (-a) (-b) (-c)

theorem qpoly_between (a b c t : ℚ) (h0 : 0 ≤ t) (h1 : t ≤ 1) :
    min (min a b) c ≤ qpoly a b c t ∧ qpoly a b c t ≤ max (max a b) c := by
  have hu : (0:ℚ) ≤ 1 - t := by linarith
  have hma : min (min a b) c ≤ a := le_trans (min_le_left _ _) (min_le_left _ _)
  have hmb : min (min a b) c ≤ b := le_trans (min_le_left _ _) (min_le_right _ _)
  have hmc : min (min a b) c ≤ c := min_le_right _ _
  have hMa : a ≤ max (max a b) c := le_trans (le_max_left _ _) (le_max_left _ _)
  have hMb : b ≤ max (max a b) c := le_trans (le_max_right _ _) (le_max_left _ _)
  have hMc : c ≤ max (max a b) c := le_max_right _ _
  unfold qpoly
  constructor
  · nlinarith [mul_nonneg (mul_nonneg hu hu) (sub_nonneg.2 hma),
      mul_nonneg (mul_nonneg hu h0) (sub_nonneg.2 hmb),
      mul_nonneg (mul_nonneg h0 h0) (sub_nonneg.2 hmc)]
  · nlinarith [mul_nonneg (mul_nonneg hu hu) (sub_nonneg.2 hMa),
      mul_nonneg (mul_nonneg hu h0) (sub_nonneg.2 hMb),
      mul_nonneg (mul_nonneg h0 h0) (sub_nonneg.2 hMc)]

/-- C4: the tight `bounding_rect` is contained in `fast_bounding_rect`, and
every curve point `sample t` with t in [0,1] lies in both rectangles. -/
theorem bounding_rect_contains_curve (s : QuadraticBezierSegment) (t : ℚ)
    (h0 : 0 ≤ t) (h1 : t ≤ 1) :
    rectContainsRect (fast_bounding_rect s) (bounding_rect s) ∧
    rectContainsPoint (bounding_rect s) (sample s t) ∧
    rectContainsPoint (fast_bounding_rect s) (sample s t) := by
  obtain ⟨hx0, hx1⟩ := qmin_mem s.from'.x s.ctrl.x s.to'.x
  obtain ⟨hX0, hX1⟩ := qmax_mem s.from'.x s.ctrl.x s.to'.x
  obtain ⟨hy0, hy1⟩ := qmin_mem s.from'.y s.ctrl.y s.to'.y
  obtain ⟨hY0, hY1⟩ := qmax_mem s.from'.y s.ctrl.y s.to'.y
  have bx_lo := qmin_le s.from'.x s.ctrl.x s.to'.x t h0 h1
  have bx_hi := qmax_ge s.from'.x s.ctrl.x s.to'.x t h0 h1
  have by_lo := qmin_le s.from'.y s.ctrl.y s.to'.y t h0 h1
  have by_hi := qmax_ge s.from'.y s.ctrl.y s.to'.y t h0 h1
  have fx := qpoly_between s.from'.x s.ctrl.x s.to'.x t h0 h1
  have fy := qpoly_between s.from'.y s.ctrl.y s.to'.y t h0 h1
  have fxm := qpoly_between s.from'.x s.ctrl.x s.to'.x
    (qmin s.from'.x s.ctrl.x s.to'.x) hx0 hx1
  have fxM := qpoly_between s.from'.x s.ctrl.x s.to'.x
    (qmax s.from'.x s.ctrl.x s.to'.x) hX0 hX1
  have fym := qpoly_between s.from'.y s.ctrl.y s.to'.y
    (qmin s.from'.y s.ctrl.y s.to'.y) hy0 hy1
  have fyM := qpoly_between s.from'.y s.ctrl.y s.to'.y
    (qmax s.from'.y s.ctrl.y s.to'.y) hY0 hY1
  refine ⟨⟨?_, ?_, ?_, ?_⟩, ⟨?_, ?_, ?_, ?_⟩, ⟨?_, ?_, ?_, ?_⟩⟩ <;>
    simp only [fast_bounding_rect, bounding_rect, rect, fast_bounding_range_x,
      fast_bounding_range_y, bounding_range_x, bounding_range_y,
      find_x_minimum_eq, find_x_maximum_eq, find_y_minimum_eq,
      find_y_maximum_eq, sample_x, sample_y] <;>
    linarith [fxm.1, fxm.2, fxM.1, fxM.2, fym.1, fym.2, fyM.1, fyM.2,
      fx.1, fx.2, fy.1, fy.2]

/-- C4 witness: the containment statement evaluated on the test arch at
t = 1/2. -/
theorem bounding_rect_contains_curve_witness :
    rectContainsRect (fast_bounding_rect segArch) (bounding_rect segArch) ∧
    rectContainsPoint (bounding_rect segArch) (sample segArch (1/2)) ∧
    rectContainsPoint (fast_bounding_rect segArch) (sample segArch (1/2)) :=
  bounding_rect_contains_curve segArch (1/2) (by norm_num) (by norm_num)

/-- C8 counterexample: `segClose` is collinear with distinct endpoints, yet
`is_linear` with tolerance 1 returns false, because the endpoints are closer
than the fixed epsilon. -/
theorem is_linear_close_endpoints :
    crossV1V2 segClose = 0 ∧
    segClose.from'.x ≠ segClose.to'.x ∧
    (0:ℝ) < 1 ∧
    is_linear segClose 1 = false := by
  refine ⟨by norm_num [crossV1V2, segClose], by norm_num [segClose], one_pos, ?_⟩
  unfold is_linear
  rw [if_pos (by norm_num [segClose])]

/-- C8 amended: for a positive tolerance, `is_linear` is true on every
collinear segment whose endpoints are at squared distance at least the fixed
epsilon 0.000001 apart (regardless of where the control point lies on the
line), and false on every segment with all three points equal. -/
theorem is_linear_collinear_amended (s : RQuadSegment) (tolerance : ℝ)
    (htol : 0 < tolerance) :
    ((crossV1V2 s = 0 ∧
        1/1000000 ≤ (s.from'.x - s.to'.x) * (s.from'.x - s.to'.x) +
          (s.from'.y - s.to'.y) * (s.from'.y - s.to'.y)) →
      is_linear s tolerance = true) ∧
    ((s.from' = s.ctrl ∧ s.ctrl = s.to') → is_linear s tolerance = false) := by
  constructor
  · rintro ⟨hcol, hfar⟩
    unfold is_linear
    rw [if_neg (not_lt.2 hfar)]
    rw [decide_eq_true_eq]
    have hnum : lineDistanceToPoint s.from' s.to' s.ctrl = 0 := by
      unfold lineDistanceToPoint
      unfold crossV1V2 at hcol
      rw [hcol]
      simp
    rw [hnum]
    exact htol
  · rintro ⟨h1, h2⟩
    have hx : s.from'.x = s.to'.x := by rw [h1, h2]
    have hy : s.from'.y = s.to'.y := by rw [h1, h2]
    unfold is_linear
    rw [if_pos (by rw [hx, hy]; norm_num)]

/-- C8 witness: `is_linear` is true on the evenly spaced collinear segment
(0,0), (1,0), (2,0) at tolerance 1. -/
theorem is_linear_collinear_amended_witness : is_linear segRLine 1 = true :=
  (is_linear_collinear_amended segRLine 1 one_pos).1
    ⟨by norm_num [crossV1V2, segRLine], by norm_num [segRLine]⟩

/-- C9 counterexample: on `segThin` the cross product of `v1 = ctrl - from`
and `v2 = to - from` is below the fixed epsilon 0.000001 in absolute value,
yet `flattening_step` with tolerance 3/160000000 returns 1/2, not 1: the
code's degenerate guard tests `|cross * h|`, not `|cross|`. -/
theorem flattening_step_small_cross_not_one :
    |crossV1V2 segThin| < 1/1000000 ∧
    flattening_step segThin (3/160000000) = 1/2 ∧
    flattening_step segThin (3/160000000) ≠ 1 := by
  have hcross : crossV1V2 segThin = 1/2000000 := by
    unfold crossV1V2 segThin
    norm_num
  have hh : hypotV1 segThin = 5 := by
    unfold hypotV1 segThin
    rw [show ((3:ℝ) - 0) * ((3:ℝ) - 0) + ((4:ℝ) - 0) * ((4:ℝ) - 0) = 5^2 by norm_num]
    exact Real.sqrt_sq (by norm_num)
  have hval : flattening_step segThin (3/160000000) = 1/2 := by
    unfold flattening_step
    rw [hcross, hh]
    rw [if_neg (by rw [abs_of_pos (by norm_num)]; norm_num)]
    have harg : (3/160000000 : ℝ) * |(5:ℝ) / (1/2000000)| / 3 = (1/4)^2 := by
      rw [abs_of_pos (by norm_num)]
      norm_num
    rw [harg, Real.sqrt_sq (by norm_num : (0:ℝ) ≤ 1/4)]
    rw [if_neg (by norm_num)]
    norm_num
  refine ⟨by rw [hcross]; rw [abs_of_pos (by norm_num)]; norm_num, hval, ?_⟩
  rw [hval]; norm_num

/-- C9 amended: `flattening_step` never exceeds 1, and it returns exactly 1
when the code's degenerate guard holds, i.e. when `|v1_cross_v2 * h|` (the
cross product scaled by the length of the control arm) is at most the fixed
epsilon 0.000001. -/
theorem flattening_step_clamped (s : RQuadSegment) (tolerance : ℝ) :
    flattening_step s tolerance ≤ 1 ∧
    (|crossV1V2 s * hypotV1 s| ≤ 1/1000000 →
      flattening_step s tolerance = 1) := by
  unfold flattening_step
  split_ifs with hg ht
  · exact ⟨le_refl 1, fun _ => rfl⟩
  · exact ⟨le_refl 1, fun h => absurd h hg⟩
  · push_neg at ht
    exact ⟨ht, fun h => absurd h hg⟩

/-- C10: for a positive tolerance, `flattening_step` is strictly positive:
the degenerate and clamped branches return 1, and otherwise the guard forces
a nonzero cross product and hypotenuse, so the square root argument is
strictly positive. -/
theorem flattening_step_pos (s : RQuadSegment) (tolerance : ℝ)
    (htol : 0 < tolerance) :
    0 < flattening_step s tolerance := by
  unfold flattening_step
  split_ifs with hg ht
  · norm_num
  · norm_num
  · push_neg at hg
    have heps : (0:ℝ) < 1/1000000 := by norm_num
    have hne : crossV1V2 s * hypotV1 s ≠ 0 := by
      intro h0
      rw [h0, abs_zero] at hg
      linarith
    have hcr : crossV1V2 s ≠ 0 := fun h0 => hne (by rw [h0, zero_mul])
    have hhy : hypotV1 s ≠ 0 := fun h0 => hne (by rw [h0, mul_zero])
    have habs : 0 < |hypotV1 s / crossV1V2 s| := abs_pos.2 (div_ne_zero hhy hcr)
    have harg : 0 < tolerance * |hypotV1 s / crossV1V2 s| / 3 := by positivity
    have hs := Real.sqrt_pos.2 harg
    linarith

/-- C10 witness: `flattening_step` is positive on the fully degenerate
segment at tolerance 1. -/
theorem flattening_step_pos_witness : 0 < flattening_step segRZero 1 :=
  flattening_step_pos segRZero 1 one_pos

end QuadBez
